import Mathlib

/-!
Shallow embedding of the food-backend recommendation scoring code
(`app/services/scoring_service.py`, `app/services/review_boost_service.py`,
`app/services/scoring_pipeline.py`) together with theorems settling the
specification claims about it.

Python values are modelled as follows: optional strings become
`Option String` (with Python truthiness: `none` and `""` are falsy),
string-or-list-of-strings values become `StrList`, numeric fields that the
code feeds through `float(...)` inside `try/except` become `Raw`
(`null` = missing/None, `notNum` = present but not parseable as a number,
`num q` = the number `q`).  Machine floats are modelled as exact rationals
(`ℚ`); `math.exp` forces `ℝ` for the distance score.
-/

/-- ASCII lower-casing by characters (Python `str.lower()` on the ASCII
strings this code handles); kept structural so that concrete instances
evaluate by kernel reduction. -/
def String.lowerPy (s : String) : String :=
  String.mk (s.data.map Char.toLower)

/-- A whitespace character as stripped by Python `str.strip()`. -/
def Char.wsPy (c : Char) : Bool :=
  decide (c = ' ' ∨ c = '\t' ∨ c = '\n' ∨ c = '\r')

/-- Python `str.strip()`. -/
def String.trimPy (s : String) : String :=
  String.mk (((s.data.dropWhile Char.wsPy).reverse.dropWhile Char.wsPy).reverse)

/-- Python `str.rstrip()`. -/
def String.trimRightPy (s : String) : String :=
  String.mk ((s.data.reverse.dropWhile Char.wsPy).reverse)

namespace FoodBackend

/-- A Python value that is either a string or a list of strings. -/
inductive StrList where
  | str (s : String)
  | list (l : List String)
deriving DecidableEq

/-- A Python value fed to `float(...)` under `try/except`:
`null` = None / missing, `notNum` = present, truthy, but not numeric,
`num q` = the numeric value `q`. -/
inductive Raw where
  | null
  | notNum
  | num (q : ℚ)
deriving DecidableEq

/-- Python truthiness of an optional string: `None` and `""` are falsy. -/
def truthyS : Option String → Option String
  | some s => if s = "" then none else some s
  | none => none

/-- Python truthiness of an optional list of strings: `None` and `[]` are falsy. -/
def truthyL : Option (List String) → Option (List String)
  | some l => if l = [] then none else some l
  | none => none

/-- Python truthiness of a `StrList` value: `""` and `[]` are falsy. -/
def truthySL : Option StrList → Option StrList
  | some (.str s) => if s = "" then none else some (.str s)
  | some (.list l) => if l = [] then none else some (.list l)
  | none => none

/-- Python truthiness of a `Raw` numeric value: `None` and `0` are falsy. -/
def truthyR : Raw → Bool
  | .null => false
  | .notNum => true
  | .num q => ¬ q = 0

/-- `a or b` on optional strings with Python truthiness, final default `""`. -/
def orS (a b : Option String) : String :=
  match truthyS a with
  | some s => s
  | none => (truthyS b).getD ""

/-- Python `needle in haystack` on strings (substring containment). -/
def substrB (needle haystack : String) : Bool :=
  (haystack.toList.tails).any (fun t => needle.toList.isPrefixOf t)

/-- The parsed user preferences (`attrs` dict) as used by the scoring code. -/
structure Attrs where
  ranking_preferences : Option StrList := none
  distance_preference : Option String := none
  raw_query : Option String := none
  budget : Raw := .null
  cuisine : Option String := none
  inferred_cuisine_from_dish : Option String := none
  food_style : Option StrList := none
  dish : Option StrList := none
  avoid_food_style : Option StrList := none
  avoid_cuisine : Option StrList := none
  mood : Option String := none
  category_hint : Option String := none
  veg_only : Bool := false
  max_distance_m : Option ℚ := none
deriving DecidableEq

/-- A candidate place record, with the fields the scoring code reads. -/
structure Place where
  place_id : Option String := none
  name : Option String := none
  category : Option String := none
  cuisine : Option String := none
  tags : Option String := none
  popularity : Raw := .null
  distance_m : Raw := .null
  price_level : Raw := .null
  score : Option ℚ := none
  reason : Option String := none
  score_with_reviews : Option ℚ := none
  reviews_list : Option (List String) := none
  reviews : Option String := none
  reviews_text : Option String := none
deriving DecidableEq

/-! ## Weights (`scoring_service.py`) -/

/-- The five weight keys of the scoring weight dict. -/
inductive WKey where
  | cuisine_match
  | style_match
  | popularity
  | distance
  | budget
deriving DecidableEq

/-- A weight dict: a rational per key. -/
def Weights := WKey → ℚ

/-- `WEIGHTS`: the module-level base weights. -/
def WEIGHTS : Weights
  | .cuisine_match => 0.35
  | .style_match => 0.15
  | .popularity => 0.20
  | .distance => 0.15
  | .budget => 0.10

/-- Sum of the five components of a weight dict. -/
def sumW (w : Weights) : ℚ :=
  w .cuisine_match + w .style_match + w .popularity + w .distance + w .budget

/-- `w[k] = v` dict update. -/
def setW (k : WKey) (v : ℚ) (w : Weights) : Weights :=
  fun j => if j = k then v else w j

/-! ## `adjust_dynamic_weights` -/

/-- The processed `ranking_preferences` list: string promoted to a singleton
list, every entry lower-cased, empty strings dropped. -/
def prefsOf (attrs : Attrs) : List String :=
  let raw : List String :=
    match truthySL attrs.ranking_preferences with
    | some (.str s) => [s]
    | some (.list l) => l
    | none => []
  (raw.map String.lowerPy).filter (fun p => ¬ p = "")

/-- The key a single ranking-preference token maps to ("budget"→budget,
"distance"→distance, "popularity"/"rating"→popularity, "cuisine"→cuisine_match,
"style"→style_match). -/
def mapKey (p : String) : Option WKey :=
  if p = "budget" then some .budget
  else if p = "distance" then some .distance
  else if p = "popularity" ∨ p = "rating" then some .popularity
  else if p = "cuisine" then some .cuisine_match
  else if p = "style" then some .style_match
  else none

/-- The 0.02 baseline weight dict used when `ranking_preferences` is present. -/
def baseline002 : Weights := fun _ => 0.02

/-- Single-primary-factor case: set the mapped key to 0.9. -/
def singleSet (p : String) (w : Weights) : Weights :=
  match mapKey p with
  | some k => setW k 0.9 w
  | none => w

/-- Multi-factor case: `+= 0.4` on the mapped key of one token. -/
def bumpMulti (w : Weights) (p : String) : Weights :=
  match mapKey p with
  | some k => setW k (w k + 0.4) w
  | none => w

/-- The pre-normalization weights of the `ranking_preferences` branch. -/
def prefsAdjusted (prefs : List String) : Weights :=
  match prefs with
  | [p0] => singleSet p0 baseline002
  | _ => prefs.foldl bumpMulti baseline002

/-- `total = sum(w.values()) or 1.0; w[k] /= total`. -/
def normalizeW (w : Weights) : Weights :=
  fun k => w k / (if sumW w = 0 then 1 else sumW w)

/-- Guard of the distance-emphasis fallback branch. -/
def distNearGuard (attrs : Attrs) : Bool :=
  match truthyS attrs.distance_preference with
  | some d => substrB "near" d ∨ substrB "nearby" d
  | none => false

/-- Guard of the popularity-emphasis fallback branch (`raw_query` keywords). -/
def popQueryGuard (attrs : Attrs) : Bool :=
  let q := ((attrs.raw_query).getD "").lowerPy
  substrB "popular" q ∨ substrB "high rating" q ∨ substrB "top rated" q

/-- `adjust_dynamic_weights(attrs, base)`. -/
def adjust_dynamic_weights (attrs : Attrs) (base : Weights) : Weights :=
  if ¬ prefsOf attrs = [] then
    normalizeW (prefsAdjusted (prefsOf attrs))
  else if distNearGuard attrs then
    fun k => match k with
      | .distance => 0.60 | .popularity => 0.15 | .cuisine_match => 0.10
      | .style_match => 0.05 | .budget => 0.10
  else if popQueryGuard attrs then
    fun k => match k with
      | .popularity => 0.50 | .distance => 0.20 | .cuisine_match => 0.15
      | .style_match => 0.05 | .budget => 0.10
  else if truthyR attrs.budget then
    fun k => match k with
      | .budget => 0.50 | .distance => 0.20 | .cuisine_match => 0.15
      | .style_match => 0.05 | .popularity => 0.10
  else if ¬ (truthyS attrs.cuisine).isNone ∨ ¬ (truthyS attrs.inferred_cuisine_from_dish).isNone then
    fun k => match k with
      | .cuisine_match => 0.50 | .distance => 0.20 | .popularity => 0.15
      | .style_match => 0.10 | .budget => 0.05
  else if ¬ (truthySL attrs.food_style).isNone then
    fun k => match k with
      | .style_match => 0.40 | .cuisine_match => 0.25 | .distance => 0.15
      | .popularity => 0.10 | .budget => 0.10
  else
    base

/-- No branch of `adjust_dynamic_weights` fires: the base weights are returned. -/
def noSignal (attrs : Attrs) : Prop :=
  prefsOf attrs = [] ∧ distNearGuard attrs = false ∧ popQueryGuard attrs = false ∧
  truthyR attrs.budget = false ∧ (truthyS attrs.cuisine).isNone ∧
  (truthyS attrs.inferred_cuisine_from_dish).isNone ∧ (truthySL attrs.food_style).isNone

instance (attrs : Attrs) : Decidable (noSignal attrs) := by
  unfold noSignal; infer_instance

/-! ## Scorer helpers (`scoring_service.py`) -/

/-- `attrs.get(key) or []`, promoting a bare string to a singleton list. -/
def slItems (o : Option StrList) : List String :=
  match truthySL o with
  | some (.str s) => [s]
  | some (.list l) => l
  | none => []

/-- `normalize_popularity`: rating scale 0–5 or 0–10 normalized to 0–1;
`None` or unparseable → 0.0. -/
def normalize_popularity : Raw → ℚ
  | .null => 0
  | .notNum => 0
  | .num v => if v ≤ 5 then max 0 (min (v / 5) 1) else max 0 (min (v / 10) 1)

/-- `distance_score`: `exp(-d/4000)` for d > 0, 1.0 for d ≤ 0, 0.5 when
unknown or unparseable. -/
noncomputable def distance_score : Raw → ℝ
  | .null => 0.5
  | .notNum => 0.5
  | .num d => if d ≤ 0 then 1 else Real.exp (-(d : ℝ) / 4000)

/-- `budget_similarity`: 1.0 within budget, stepped taper when pricier,
0.5 when either side is missing or unparseable. -/
def budget_similarity : Raw → Raw → ℚ
  | .null, _ => 0.5
  | _, .null => 0.5
  | .notNum, _ => 0.5
  | _, .notNum => 0.5
  | .num b, .num p =>
    if p ≤ b then 1
    else if p ≤ 1.3 * b then 0.7
    else if p ≤ 1.6 * b then 0.4
    else 0.1

/-- `DISH_HINTS` values: a cuisine hint or a category hint. -/
inductive DishHint where
  | cuisine (s : String)
  | category (s : String)
deriving DecidableEq

/-- The `DISH_HINTS` table. -/
def DISH_HINTS : List (String × DishHint) :=
  [("dosa", .cuisine "south indian"), ("idli", .cuisine "south indian"),
   ("vada", .cuisine "south indian"), ("pongal", .cuisine "south indian"),
   ("biryani", .cuisine "indian"), ("naan", .cuisine "north indian"),
   ("butter naan", .cuisine "north indian"), ("butter chicken", .cuisine "north indian"),
   ("fried rice", .cuisine "chinese"), ("manchurian", .cuisine "chinese"),
   ("noodles", .cuisine "chinese"), ("pizza", .cuisine "italian"),
   ("pasta", .cuisine "italian"), ("burger", .category "fast food"),
   ("ice cream", .category "dessert"), ("brownie", .category "dessert"),
   ("litti", .cuisine "bihari"), ("litti chokha", .cuisine "bihari"),
   ("dal bati", .cuisine "rajasthani"), ("misal pav", .cuisine "maharashtrian")]

/-- The `CUISINE_FAMILIES` table, in dict insertion order. -/
def CUISINE_FAMILIES : List (String × List String) :=
  [("south indian", ["south indian", "andhra", "telangana", "tamil", "kerala",
                     "karnataka", "udupi", "chettinad"]),
   ("north indian", ["north indian", "punjabi", "mughlai", "awadhi", "bihari"]),
   ("east indian", ["bengali", "odia", "oriya", "assamese"]),
   ("west indian", ["rajasthani", "gujarati", "maharashtrian", "goan"]),
   ("coastal", ["mangalorean", "konkan", "seafood"]),
   ("generic_indian", ["indian"])]

/-- The `STATE_FAMILY` table. -/
def STATE_FAMILY : List (String × String) :=
  [("andhra", "south indian"), ("telangana", "south indian"),
   ("tamil nadu", "south indian"), ("kerala", "south indian"),
   ("karnataka", "south indian"), ("punjab", "north indian"),
   ("uttar pradesh", "north indian"), ("bihar", "north indian"),
   ("delhi", "north indian"), ("haryana", "north indian"),
   ("rajasthan", "west indian"), ("gujarat", "west indian"),
   ("maharashtra", "west indian"), ("goa", "west indian"),
   ("west bengal", "east indian"), ("odisha", "east indian"),
   ("orissa", "east indian"), ("assam", "east indian")]

/-- The `STYLE_HINTS` table: style → (cuisines, categories). -/
def STYLE_HINTS : List (String × (List String × List String)) :=
  [("soft", (["south indian"], [])),
   ("light", (["south indian", "healthy"], [])),
   ("comfort", (["south indian", "indian"], [])),
   ("crunchy", ([], ["fast food"])),
   ("crispy", ([], ["fast food", "chinese"])),
   ("cheesy", (["italian"], ["fast food"])),
   ("spicy", (["andhra", "chettinad", "indo-chinese", "north indian"], [])),
   ("sweet", ([], ["dessert", "bakery"])),
   ("healthy", ([], ["salad", "healthy food"]))]

/-- `_get_family`: map a cuisine/region string to a coarse family name. -/
def getFamily (label : String) : String :=
  if label = "" then ""
  else
    let txt := label.lowerPy
    match STATE_FAMILY.find? (fun e => e.1 = txt) with
    | some e => e.2
    | none =>
      match CUISINE_FAMILIES.find? (fun fv => fv.2.any (fun v => substrB v txt)) with
      | some fv => fv.1
      | none => if substrB "indian" txt then "generic_indian" else ""

/-- `attrs.get("cuisine") or attrs.get("inferred_cuisine_from_dish")`. -/
def userCuisineOf (attrs : Attrs) : Option String :=
  match truthyS attrs.cuisine with
  | some c => some c
  | none => truthyS attrs.inferred_cuisine_from_dish

/-- The cuisine relation of a place to the requested cuisine. -/
inductive Rel where
  | strong
  | weak
  | none
deriving DecidableEq

/-- `classify_cuisine_relation`. -/
def classify_cuisine_relation (attrs : Attrs) (place : Place) : Rel :=
  match userCuisineOf attrs with
  | Option.none => .none
  | some user_cuisine =>
    let uc := user_cuisine.lowerPy
    let cat := (place.category.getD "").lowerPy
    let cuisine_text := (orS place.category place.cuisine).lowerPy
    if cuisine_text = "" ∧ cat = "" then .none
    else if substrB uc cuisine_text then .strong
    else
      let user_family := getFamily uc
      let place_family := getFamily cuisine_text
      if ¬ user_family = "" ∧ ¬ place_family = "" then
        if user_family = place_family then .strong
        else if (user_family = "south indian" ∧ place_family = "generic_indian") ∨
                (user_family = "generic_indian" ∧
                  (place_family = "south indian" ∨ place_family = "north indian")) then .weak
        else .none
      else .none

/-- `cuisine_match_score`: strong → 1.0, weak → 0.6, none → 0.0,
neutral 0.5 when no cuisine/dish requested. -/
def cuisine_match_score (attrs : Attrs) (place : Place) : ℚ :=
  match userCuisineOf attrs with
  | Option.none => 0.5
  | some _ =>
    match classify_cuisine_relation attrs place with
    | .strong => 1
    | .weak => 0.6
    | .none => 0

/-- `style_score_fn`: fraction of desired style adjectives found in tags. -/
def style_score_fn (attrs : Attrs) (place : Place) : ℚ :=
  let desired := slItems attrs.food_style
  let tags := (place.tags.getD "").lowerPy
  if desired = [] ∨ tags = "" then 0
  else ((desired.filter (fun s => substrB s.lowerPy tags)).length : ℚ) / desired.length

/-- `avoid_penalty`: −0.4 per avoided style in tags and per avoided cuisine
in category. -/
def avoid_penalty (attrs : Attrs) (place : Place) : ℚ :=
  let avoid_styles := slItems attrs.avoid_food_style
  let avoid_cuisines := slItems attrs.avoid_cuisine
  let tags := (place.tags.getD "").lowerPy
  let cat := (place.category.getD "").lowerPy
  ((avoid_styles.filter (fun s => substrB s.lowerPy tags)).length : ℚ) * (-0.4) +
    ((avoid_cuisines.filter (fun c => substrB c.lowerPy cat)).length : ℚ) * (-0.4)

/-- Does a dish hint's cuisine/category string occur in the place category? -/
def hintMatches (h : DishHint) (place_cat : String) : Bool :=
  match h with
  | .cuisine s => substrB s place_cat
  | .category s => substrB s place_cat

/-- One step of the `dish_boost` accumulation loop. -/
def dishStep (rel : Rel) (place_cat : String) (b : ℚ) (d : String) : ℚ :=
  match DISH_HINTS.find? (fun e => e.1 = d) with
  | Option.none => b
  | some e =>
    if hintMatches e.2 place_cat then
      match rel with
      | .strong => max b 0.25
      | .weak => max b 0.15
      | .none => b
    else b

/-- The normalized list of requested dishes (lower-cased). -/
def dishesOf (attrs : Attrs) : List String :=
  (slItems attrs.dish).map String.lowerPy

/-- `dish_boost`: boost when the requested dish's hinted cuisine/category
occurs in the place category, gated by the cuisine relation. -/
def dish_boost (attrs : Attrs) (place : Place) : ℚ :=
  match truthySL attrs.dish with
  | Option.none => 0
  | some _ =>
    let dishes := dishesOf attrs
    let place_cat := (place.category.getD "").lowerPy
    let rel := classify_cuisine_relation attrs place
    let boost := dishes.foldl (dishStep rel place_cat) 0
    if rel = .none then 0 else boost

/-- One step of the `_style_inference_boost` loop (one desired style). -/
def styleInfStep (cat tags : String) (b : ℚ) (s : String) : ℚ :=
  match STYLE_HINTS.find? (fun e => e.1 = s.lowerPy) with
  | Option.none => b
  | some e =>
    let b1 := e.2.1.foldl
      (fun acc c => if substrB c cat ∨ substrB c tags then acc + 0.08 else acc) b
    e.2.2.foldl
      (fun acc c => if substrB c cat ∨ substrB c tags then acc + 0.08 else acc) b1

/-- `_style_inference_boost`: +0.08 per matched style hint, clamped to
[−0.25, 0.25]. -/
def style_inference_boost (attrs : Attrs) (place : Place) : ℚ :=
  let desired := slItems attrs.food_style
  if desired = [] then 0
  else
    let cat := (place.category.getD "").lowerPy
    let tags := (place.tags.getD "").lowerPy
    let boost := desired.foldl (styleInfStep cat tags) 0
    max (-0.25) (min boost 0.25)

/-- `mood_boost`: soft mood effect, clamped to [−0.25, 0.25]. -/
def mood_boost (attrs : Attrs) (place : Place) : ℚ :=
  match truthyS attrs.mood with
  | Option.none => 0
  | some m =>
    let mt := m.lowerPy
    let cat := (place.category.getD "").lowerPy
    let tags := (place.tags.getD "").lowerPy
    let b0 : ℚ := 0
    let b1 :=
      if substrB "comfort" mt ∨ substrB "rough" mt ∨ substrB "bad day" mt ∨
         substrB "sad" mt ∨ substrB "tired" mt then
        let c1 :=
          if substrB "vegetarian" cat ∨ substrB "veg" cat then b0 + 0.18
          else if substrB "south indian" cat then b0 + 0.15
          else if substrB "indian" cat then b0 + 0.08
          else b0
        let c2 :=
          if substrB "light" tags ∨ substrB "home-style" tags ∨
             substrB "healthy" tags ∨ substrB "soft" tags then c1 + 0.10
          else c1
        let c3 := if substrB "fast food" cat ∨ substrB "chinese" cat then c2 - 0.08 else c2
        if substrB "fried" tags ∨ substrB "biryani" tags ∨ substrB "tandoori" tags ∨
           substrB "oily" tags then c3 - 0.10
        else c3
      else b0
    let b2 :=
      if substrB "celebration" mt ∨ substrB "party" mt ∨ substrB "birthday" mt then
        let d1 :=
          if substrB "mughlai" cat ∨ substrB "north indian" cat ∨ substrB "biryani" tags then
            b1 + 0.12
          else b1
        if substrB "dessert" cat ∨ substrB "bakery" cat ∨ substrB "sweet" tags then d1 + 0.08
        else d1
      else b1
    max (-0.25) (min b2 0.25)

/-- `compute_score`: weighted factor sum plus boosts and penalties, clamped
to [0, 1]. -/
noncomputable def compute_score (attrs : Attrs) (place : Place) : ℝ :=
  let c := cuisine_match_score attrs place
  let s := style_score_fn attrs place
  let p := normalize_popularity place.popularity
  let d := distance_score place.distance_m
  let b := budget_similarity attrs.budget place.price_level
  let penalty := avoid_penalty attrs place
  let dish_extra := dish_boost attrs place
  let mood_extra := mood_boost attrs place
  let style_inferred_extra := style_inference_boost attrs place
  let w := adjust_dynamic_weights attrs WEIGHTS
  let base : ℝ :=
    ((w .cuisine_match * c : ℚ) : ℝ) + ((w .style_match * s : ℚ) : ℝ) +
      ((w .popularity * p : ℚ) : ℝ) + ((w .distance : ℚ) : ℝ) * d +
      ((w .budget * b : ℚ) : ℝ)
  let final := base + ((dish_extra : ℚ) : ℝ) + ((mood_extra : ℚ) : ℝ) +
    ((style_inferred_extra : ℚ) : ℝ) + ((penalty : ℚ) : ℝ)
  max 0 (min final 1)

/-! ## Review boost service (`review_boost_service.py`) -/

/-- `_flatten_reviews`: first truthy of `reviews_list` / `reviews` /
`reviews_text`, lists joined with spaces (falsy entries dropped). -/
def flattenReviews (p : Place) : String :=
  match truthyL p.reviews_list with
  | some l => String.intercalate " " (l.filter (fun r => ¬ r = ""))
  | Option.none =>
    match truthyS p.reviews with
    | some s => s
    | Option.none => (truthyS p.reviews_text).getD ""

/-- The `_STOPWORDS` set. -/
def STOPWORDS : List String :=
  ["i", "me", "my", "we", "you", "he", "she", "they",
   "want", "need", "some", "something", "food", "place", "restaurant",
   "near", "nearby", "around", "very", "really", "just",
   "give", "get", "for", "to", "a", "an", "the", "in", "at", "of",
   "on", "with", "and", "or", "but", "too", "also", "like"]

/-- A character kept by the tokenizer split `[^a-z0-9]+` (text is
lower-cased first). -/
def tokChar (c : Char) : Bool :=
  decide ((97 ≤ c.toNat ∧ c.toNat ≤ 122) ∨ (48 ≤ c.toNat ∧ c.toNat ≤ 57))

/-- Split a character list into maximal runs of tokenizer characters
(the nonempty pieces of the `re.split` above). -/
def splitRuns : List Char → List Char → List String
  | [], acc => [String.mk acc.reverse]
  | c :: rest, acc =>
    if tokChar c then splitRuns rest (c :: acc)
    else String.mk acc.reverse :: splitRuns rest []

/-- `_tokenize`: lower-case, split on non-alphanumerics, drop empties and
stopwords. -/
def tokenize (text : String) : List String :=
  (splitRuns text.lowerPy.toList []).filter (fun t => ¬ t = "" ∧ t ∉ STOPWORDS)

/-- Tokens of an optional string field (absent → no tokens). -/
def optTokens : Option String → List String
  | some s => tokenize s
  | Option.none => []

/-- `_build_query_terms`: the set of query terms, as a duplicate-free list. -/
def buildQueryTerms (user_query : String) (attrs : Attrs) : List String :=
  (tokenize user_query ++
    optTokens attrs.cuisine ++ optTokens attrs.inferred_cuisine_from_dish ++
    optTokens attrs.mood ++ optTokens attrs.category_hint ++
    (match attrs.dish with
     | some (.str s) => tokenize s
     | some (.list l) => (l.map tokenize).flatten
     | Option.none => []) ++
    ((slItems attrs.food_style).map tokenize).flatten).dedup

/-- `_review_match_score`: term overlap mapped into [0.3, 1.0]; neutral 0.5
when there is nothing to compare. -/
def reviewMatchScore (user_query : String) (attrs : Attrs) (reviews_text : String) : ℚ :=
  if reviews_text = "" then 0.5
  else
    let query_terms := buildQueryTerms user_query attrs
    if query_terms = [] then 0.5
    else
      let review_tokens := (tokenize reviews_text).dedup
      if review_tokens = [] then 0.5
      else
        let common := query_terms.filter (fun t => t ∈ review_tokens)
        let overlap : ℚ := (common.length : ℚ) / (max query_terms.length 1 : ℕ)
        0.3 + 0.7 * max 0 (min overlap 1)

/-- Index (in characters) of the first occurrence of `n` in `h`. -/
def findSub (h n : String) : Option ℕ :=
  (List.range (h.length + 1)).find? (fun i => n.toList.isPrefixOf (h.toList.drop i))

/-- One candidate cut of `_short_review_summary` at a sentence separator. -/
def summaryCut (text sep : String) (max_len : ℕ) : Option String :=
  match findSub text sep with
  | some idx =>
    if 0 < idx ∧ idx < max_len then some (String.mk (text.toList.take (idx + 1))).trimPy
    else Option.none
  | Option.none => Option.none

/-- `_short_review_summary`: first sentence if it ends within 140 chars,
else a hard crop. -/
def shortReviewSummary (reviews_text : String) (max_len : ℕ := 140) : String :=
  let text := reviews_text.trimPy
  if text = "" then ""
  else
    match summaryCut text ". " max_len with
    | some r => r
    | Option.none =>
      match summaryCut text "!" max_len with
      | some r => r
      | Option.none =>
        match summaryCut text "? " max_len with
        | some r => r
        | Option.none =>
          if max_len < text.length then
            (String.mk (text.toList.take max_len)).trimRightPy ++ "..."
          else text

/-- Python `str(place_id)` where a missing id prints as `"None"`. -/
def pidStr : Option String → String
  | some s => s
  | Option.none => "None"

/-- The `review_scores` dict of `re_rank_with_reviews`, as an association
list in insertion order (top-K candidates with non-blank review text). -/
def reviewEntries (user_query : String) (attrs : Attrs) (candidates : List Place) :
    List (String × ℚ × String) :=
  candidates.filterMap (fun p =>
    let reviews_text := flattenReviews p
    if reviews_text.trimPy = "" then Option.none
    else some (pidStr p.place_id,
               reviewMatchScore user_query attrs reviews_text,
               shortReviewSummary reviews_text))

/-- Dict lookup where later insertions shadow earlier ones. -/
def lookupLast (l : List (String × ℚ × String)) (k : String) : Option (ℚ × String) :=
  (l.reverse.find? (fun e => e.1 = k)).map (fun e => e.2)

/-- Per-place body of the re-scoring loop of `re_rank_with_reviews`: a hit
in `review_scores` blends the score and extends the reason, a miss keeps
the base score. -/
def rescoreOne (entries : List (String × ℚ × String)) (blend_weight : ℚ) (p : Place) :
    Place :=
  match lookupLast entries (pidStr p.place_id) with
  | some rs =>
    { p with
      reason :=
        if ¬ rs.2 = "" then
          some (match truthyS p.reason with
            | some er => er ++ ". Reviews highlight: " ++ rs.2
            | Option.none => "Reviews highlight: " ++ rs.2)
        else p.reason,
      score_with_reviews :=
        some ((1 - blend_weight) * p.score.getD 0 + blend_weight * rs.1) }
  | Option.none => { p with score_with_reviews := some (p.score.getD 0) }

/-- Sort key of the final sort: `score_with_reviews`, falling back to
`score`, then 0.0. -/
def sortKey (p : Place) : ℚ :=
  p.score_with_reviews.getD (p.score.getD 0)

/-- Stable descending insertion (earlier items come first on ties),
modelling Python `list.sort(key=..., reverse=True)`. -/
def insDesc (key : Place → ℚ) (a : Place) : List Place → List Place
  | [] => [a]
  | q :: t => if key q ≤ key a then a :: q :: t else q :: insDesc key a t

/-- Stable descending sort. -/
def sortByDesc (key : Place → ℚ) (l : List Place) : List Place :=
  l.foldr (insDesc key) []

/-- `re_rank_with_reviews`. -/
def re_rank_with_reviews (user_query : String) (attrs : Attrs)
    (ranked_places : List Place) (top_k_for_reviews : ℕ := 15)
    (blend_weight : ℚ := 0.25) : List Place :=
  if ranked_places = [] then ranked_places
  else if ¬ ranked_places.any (fun p => ¬ (flattenReviews p).trimPy = "") then ranked_places
  else
    let candidates := ranked_places.take top_k_for_reviews
    let entries := reviewEntries user_query attrs candidates
    if entries = [] then ranked_places
    else sortByDesc sortKey (ranked_places.map (rescoreOne entries blend_weight))

/-! ## Pipeline candidate selection and fallback diagnostics
(`scoring_pipeline.py`, `rank_places`) -/

/-- `_is_veg_place`: "vegetarian" occurs in the combined cuisine/category
text. -/
def isVegPlace (p : Place) : Bool :=
  substrB "vegetarian" ((p.cuisine.getD "").lowerPy ++ " " ++ (p.category.getD "").lowerPy)

/-- `user_has_specific_preference`: truthy cuisine, inferred cuisine or dish. -/
def userHasSpecificPref (attrs : Attrs) : Bool :=
  ¬ (truthyS attrs.cuisine).isNone ∨ ¬ (truthyS attrs.inferred_cuisine_from_dish).isNone ∨
    ¬ (truthySL attrs.dish).isNone

/-- The strict veg / max-distance pre-filter of `rank_places`. -/
def vegDistFiltered (attrs : Attrs) (places : List Place) : List Place :=
  places.filter (fun p =>
    ((if attrs.veg_only then isVegPlace p else true) &&
      (match attrs.max_distance_m, p.distance_m with
       | some md, .num d => decide (¬ md < d)
       | _, _ => true)))

/-- The avoid-cuisine skip of the grouping loop. -/
def avoidCuisineHit (attrs : Attrs) (p : Place) : Bool :=
  let category := (p.category.getD "").lowerPy
  (slItems attrs.avoid_cuisine).any (fun ac => substrB ac.lowerPy category)

/-- The candidate set selected by `rank_places` (grouping by cuisine
relation, then strong ≻ weak ≻ neutral). -/
def selectedCandidates (attrs : Attrs) (places : List Place) : List Place :=
  let pass := (vegDistFiltered attrs places).filter (fun p => ¬ avoidCuisineHit attrs p)
  if userHasSpecificPref attrs then
    let strong := pass.filter (fun p => classify_cuisine_relation attrs p = .strong)
    let weak := pass.filter (fun p => classify_cuisine_relation attrs p = .weak)
    let neutral := pass.filter (fun p => classify_cuisine_relation attrs p = .none)
    if ¬ strong = [] then strong
    else if ¬ weak = [] then weak
    else neutral
  else pass

/-- The cuisine-fallback membership test of `rank_places`: the lowered
requested-cuisine token occurs in the candidate's lowered category or
cuisine text. -/
def cuisineTokenHit (rc : String) (p : Place) : Bool :=
  substrB rc.lowerPy ((p.category.getD "").lowerPy) ∨
    substrB rc.lowerPy ((p.cuisine.getD "").lowerPy)

/-- The `_fallback_type` value that `rank_places` stores into the attrs
dict (the cuisine-fallback diagnostic; everything else in `rank_places`
leaves it untouched). -/
def rank_places_fallback_type (attrs : Attrs) (places : List Place) : Option String :=
  match userCuisineOf attrs with
  | Option.none => Option.none
  | some requested_cuisine =>
    if selectedCandidates attrs places = [] then Option.none
    else if (selectedCandidates attrs places).any (cuisineTokenHit requested_cuisine) then
      Option.none
    else some "cuisine_family_fallback"

/-- One dish token's hit test in `dish_boost`: the token is in the
`DISH_HINTS` table and the hinted text occurs in the (lowered) category. -/
def dishHit (cat d : String) : Bool :=
  match DISH_HINTS.find? (fun e => e.1 = d) with
  | some e => hintMatches e.2 cat
  | Option.none => false

/-- `dishHit` against a place's lowered category. -/
def dishHintHit (place : Place) (d : String) : Bool :=
  dishHit ((place.category.getD "").lowerPy) d

/-- The boost level a cuisine relation earns in `dish_boost`. -/
def relBoost : Rel → ℚ
  | .strong => 0.25
  | .weak => 0.15
  | .none => 0

/-- Duplicate-free `str(place_id)` keys across a candidate list. -/
def pidNodup (l : List Place) : Prop :=
  (l.map (fun p => pidStr p.place_id)).Nodup

instance (l : List Place) : Decidable (pidNodup l) := by
  unfold pidNodup; infer_instance

/-! ## Concrete fixtures used by witnesses and counterexamples -/

/-- Preferences with only a numeric budget. -/
def attrsBudget500 : Attrs := { budget := .num 500 }

/-- Preferences with `ranking_preferences = ["budget"]`. -/
def attrsRankBudget : Attrs := { ranking_preferences := some (.list ["budget"]) }

/-- Preferences asking for the dish "dosa" with inferred south indian cuisine. -/
def attrsDosa : Attrs :=
  { dish := some (.str "dosa"), inferred_cuisine_from_dish := some "south indian" }

/-- A south indian place. -/
def placeSouthIndian : Place := { category := some "south indian" }

/-- Preferences asking for kerala cuisine. -/
def attrsKerala : Attrs := { cuisine := some "kerala" }

/-- A pizza place (no kerala match). -/
def placePizza : Place := { category := some "pizza" }

/-- A candidate with a score and no reviews. -/
def placeNoReviews : Place := { score := some 0.5 }

/-- A candidate with a score and one review. -/
def placeReviewed : Place := { place_id := some "a", score := some 0.5, reviews := some "good" }

/-- The reviewed candidate after re-scoring against query "x". -/
def placeReviewedRescored : Place :=
  { placeReviewed with
    reason := some "Reviews highlight: good",
    score_with_reviews :=
      some ((1 - 0.25) * 0.5 + 0.25 * reviewMatchScore "x" ({} : Attrs) "good") }

/-- Top-ranked candidate with a review (shares its place_id with
`placeTail`). -/
def placeTopReviewed : Place := { place_id := some "a", score := some 0, reviews := some "good" }

/-- A review-less filler candidate. -/
def placeFiller : Place := { place_id := some "f", score := some 0 }

/-- A review-less candidate beyond position 15 sharing place_id "a". -/
def placeTail : Place := { place_id := some "a", name := some "b", score := some 0 }

/-- 16 candidates: a reviewed head, 14 fillers, and `placeTail` at index 15
with a duplicate place_id. -/
def listDupPid : List Place := placeTopReviewed :: (List.replicate 14 placeFiller ++ [placeTail])

/-- What `placeTail` becomes after the re-scoring loop (review leak through
the duplicate place_id). -/
def placeTailRescored : Place :=
  { placeTail with
    reason := some "Reviews highlight: good",
    score_with_reviews :=
      some ((1 - 0.25) * 0 + 0.25 * reviewMatchScore "x" ({} : Attrs) "good") }

/-- 16 candidates where only the one beyond position 15 carries a review. -/
def listLateReviews : List Place := List.replicate 15 placeFiller ++ [placeReviewed]

/-- 16 candidates with pairwise-distinct place_ids, the head reviewed. -/
def listDistinctPids : List Place :=
  { place_id := some "head", score := some 0, reviews := some "good" } ::
    (List.range 15).map (fun n =>
      { place_id := some (String.mk (List.replicate n 'a')), score := some 0 })

/-! ## Weight lemmas -/

/-- When no preference signal is present, `adjust_dynamic_weights` returns
the base weights unchanged. -/
theorem adjust_noSignal (attrs : Attrs) (base : Weights) (h : noSignal attrs) :
    adjust_dynamic_weights attrs base = base := by
  obtain ⟨h1, h2, h3, h4, h5, h6, h7⟩ := h
  unfold adjust_dynamic_weights
  simp [h1, h2, h3, h4, h5, h6, h7]

/-- Normalization really normalizes as soon as the total is nonzero. -/
theorem sumW_normalizeW (w : Weights) (h : ¬ sumW w = 0) : sumW (normalizeW w) = 1 := by
  show w .cuisine_match / _ + w .style_match / _ + w .popularity / _ + w .distance / _ +
    w .budget / _ = 1
  rw [if_neg h, div_add_div_same, div_add_div_same, div_add_div_same, div_add_div_same]
  exact div_self h

/-- The multi-factor bump loop keeps every weight at or above the baseline. -/
theorem foldl_bumpMulti_ge (l : List String) (w : Weights) (hw : ∀ k, (0.02:ℚ) ≤ w k) :
    ∀ k, (0.02:ℚ) ≤ (l.foldl bumpMulti w) k := by
  induction l generalizing w with
  | nil => exact hw
  | cons p t ih =>
    refine ih _ (fun k => ?_)
    cases hm : mapKey p with
    | none => simp only [bumpMulti, hm]; exact hw k
    | some j =>
      simp only [bumpMulti, hm, setW]
      by_cases hkj : k = j
      · rw [if_pos hkj]; have := hw j; linarith
      · rw [if_neg hkj]; exact hw k

/-- Every pre-normalization weight of the `ranking_preferences` branch is at
least the 0.02 baseline. -/
theorem prefsAdjusted_ge (prefs : List String) (k : WKey) :
    (0.02:ℚ) ≤ prefsAdjusted prefs k := by
  have hbase : ∀ j, (0.02:ℚ) ≤ baseline002 j := fun j => le_refl _
  rcases prefs with _ | ⟨p, _ | ⟨q, t⟩⟩
  · exact foldl_bumpMulti_ge [] baseline002 hbase k
  · show (0.02:ℚ) ≤ singleSet p baseline002 k
    cases hm : mapKey p with
    | none => simp only [singleSet, hm]; exact hbase k
    | some j =>
      simp only [singleSet, hm, setW]
      by_cases hkj : k = j
      · rw [if_pos hkj]; norm_num
      · rw [if_neg hkj]; exact hbase k
  · exact foldl_bumpMulti_ge (p :: q :: t) baseline002 hbase k

/-- The pre-normalization total of the `ranking_preferences` branch is
positive. -/
theorem sumW_prefsAdjusted_pos (prefs : List String) : (0:ℚ) < sumW (prefsAdjusted prefs) := by
  have h1 := prefsAdjusted_ge prefs .cuisine_match
  have h2 := prefsAdjusted_ge prefs .style_match
  have h3 := prefsAdjusted_ge prefs .popularity
  have h4 := prefsAdjusted_ge prefs .distance
  have h5 := prefsAdjusted_ge prefs .budget
  unfold sumW
  linarith

/-- C1 (amended): the five adjusted weights sum to exactly 1 whenever any
preference signal fires (normalized branch and every preset fallback
branch); in the final no-signal branch the base `WEIGHTS` are returned
unchanged, and those sum to 0.95, not 1. -/
theorem c1_adjusted_weights_sum (attrs : Attrs) :
    (¬ noSignal attrs → sumW (adjust_dynamic_weights attrs WEIGHTS) = 1) ∧
    (noSignal attrs → adjust_dynamic_weights attrs WEIGHTS = WEIGHTS) ∧
    sumW WEIGHTS = 0.95 := by
  refine ⟨?_, fun h => adjust_noSignal attrs WEIGHTS h, by norm_num [sumW, WEIGHTS]⟩
  intro hns
  unfold adjust_dynamic_weights
  by_cases h1 : prefsOf attrs = []
  case neg =>
    rw [if_pos h1]
    exact sumW_normalizeW _ (ne_of_gt (sumW_prefsAdjusted_pos _))
  rw [if_neg (not_not_intro h1)]
  by_cases h2 : distNearGuard attrs = true
  case pos => rw [if_pos h2]; norm_num [sumW]
  rw [if_neg h2]
  by_cases h3 : popQueryGuard attrs = true
  case pos => rw [if_pos h3]; norm_num [sumW]
  rw [if_neg h3]
  by_cases h4 : truthyR attrs.budget = true
  case pos => rw [if_pos h4]; norm_num [sumW]
  rw [if_neg h4]
  by_cases h5 : ¬ (truthyS attrs.cuisine).isNone ∨ ¬ (truthyS attrs.inferred_cuisine_from_dish).isNone
  case pos => rw [if_pos h5]; norm_num [sumW]
  rw [if_neg h5]
  by_cases h6 : ¬ (truthySL attrs.food_style).isNone
  case pos => rw [if_pos h6]; norm_num [sumW]
  rw [if_neg h6]
  exfalso
  apply hns
  push_neg at h5 h6
  exact ⟨h1, by simpa using h2, by simpa using h3, by simpa using h4,
    by simpa using h5.1, by simpa using h5.2, by simpa using h6⟩

/-- C1 counterexample: with no preference signal at all, the returned
weight vector is the base `WEIGHTS`, whose components sum to 0.95 — not
within 1e-6 of 1.0. -/
theorem c1_base_weights_sum_cex :
    adjust_dynamic_weights ({} : Attrs) WEIGHTS = WEIGHTS ∧
    sumW (adjust_dynamic_weights ({} : Attrs) WEIGHTS) = 0.95 ∧
    ¬ |sumW (adjust_dynamic_weights ({} : Attrs) WEIGHTS) - 1| ≤ 1 / 1000000 := by
  have h : adjust_dynamic_weights ({} : Attrs) WEIGHTS = WEIGHTS :=
    adjust_noSignal _ _ (by decide)
  refine ⟨h, ?_, ?_⟩
  · rw [h]; norm_num [sumW, WEIGHTS]
  · rw [h]; norm_num [sumW, WEIGHTS, abs_le]

/-- C1 witness: a concrete signal (numeric budget 500) takes a fallback
branch whose weights sum to exactly 1. -/
theorem c1_adjusted_weights_sum_witness :
    ¬ noSignal attrsBudget500 ∧ sumW (adjust_dynamic_weights attrsBudget500 WEIGHTS) = 1 :=
  ⟨by decide, (c1_adjusted_weights_sum attrsBudget500).1 (by decide)⟩

/-- The pre-normalization total after a single recognized token: the mapped
key holds 0.9, the other four 0.02 each. -/
theorem sumW_setW_baseline (k : WKey) (v : ℚ) :
    sumW (setW k v baseline002) = v + 0.08 := by
  cases k <;> simp [sumW, setW, baseline002] <;> ring

/-- C6: with exactly one recognized `ranking_preferences` token, the mapped
key is set to 0.9 over a 0.02 baseline before normalization, and after
normalization the mapped key is the strictly highest-weighted of the five. -/
theorem c6_single_pref_dominance (attrs : Attrs) (p0 : String) (k : WKey)
    (hp : prefsOf attrs = [p0]) (hk : mapKey p0 = some k) :
    prefsAdjusted [p0] k = 0.9 ∧
    (∀ j, ¬ j = k → prefsAdjusted [p0] j = 0.02) ∧
    (∀ j, ¬ j = k →
      adjust_dynamic_weights attrs WEIGHTS j < adjust_dynamic_weights attrs WEIGHTS k) := by
  have hpa : prefsAdjusted [p0] = setW k 0.9 baseline002 := by
    show singleSet p0 baseline002 = setW k 0.9 baseline002
    simp only [singleSet, hk]
  refine ⟨?_, ?_, ?_⟩
  · rw [hpa]; simp [setW]
  · intro j hj; rw [hpa]; simp [setW, hj, baseline002]
  · intro j hj
    have hadj : adjust_dynamic_weights attrs WEIGHTS = normalizeW (prefsAdjusted [p0]) := by
      unfold adjust_dynamic_weights
      rw [hp]
      simp
    have hsum : sumW (prefsAdjusted [p0]) = 0.98 := by
      rw [hpa, sumW_setW_baseline]; norm_num
    rw [hadj]
    unfold normalizeW
    rw [hsum, hpa]
    unfold setW
    rw [if_neg hj, if_pos rfl]
    norm_num [baseline002]

/-- C6 witness: `ranking_preferences = ["budget"]` makes budget the strictly
highest-weighted key (checked against the distance key). -/
theorem c6_single_pref_dominance_witness :
    prefsOf attrsRankBudget = ["budget"] ∧ mapKey "budget" = some WKey.budget ∧
    ¬ WKey.distance = WKey.budget ∧
    adjust_dynamic_weights attrsRankBudget WEIGHTS .distance <
      adjust_dynamic_weights attrsRankBudget WEIGHTS .budget :=
  ⟨by decide, by decide, by decide,
    (c6_single_pref_dominance attrsRankBudget "budget" .budget (by decide) (by decide)).2.2
      .distance (by decide)⟩

/-! ## Distance, popularity and budget scorers -/

/-- C8: `distance_score` is strictly decreasing for positive distances,
returns exactly 1.0 for distances ≤ 0, and returns the neutral 0.5 when the
distance is missing or unparseable. -/
theorem c8_distance_score_monotone :
    (∀ d1 d2 : ℚ, 0 < d1 → d1 < d2 →
      distance_score (.num d2) < distance_score (.num d1)) ∧
    (∀ d : ℚ, d ≤ 0 → distance_score (.num d) = 1) ∧
    distance_score .null = 0.5 ∧ distance_score .notNum = 0.5 := by
  refine ⟨?_, ?_, rfl, rfl⟩
  · intro d1 d2 h1 h12
    show (if d2 ≤ 0 then (1:ℝ) else Real.exp (-(d2:ℝ) / 4000)) <
      (if d1 ≤ 0 then (1:ℝ) else Real.exp (-(d1:ℝ) / 4000))
    rw [if_neg (by linarith), if_neg (by linarith)]
    apply Real.exp_lt_exp.mpr
    have hc : (d1 : ℝ) < (d2 : ℝ) := by exact_mod_cast h12
    linarith
  · intro d h
    show (if d ≤ 0 then (1:ℝ) else Real.exp (-(d:ℝ) / 4000)) = 1
    rw [if_pos h]

/-- C8 witness: concrete instances of the monotonicity (distances 1 and 2)
and of the 1.0 value at distance 0. -/
theorem c8_distance_score_monotone_witness :
    (0:ℚ) < 1 ∧ (1:ℚ) < 2 ∧ distance_score (.num 2) < distance_score (.num 1) ∧
    (0:ℚ) ≤ 0 ∧ distance_score (.num 0) = 1 :=
  ⟨by norm_num, by norm_num,
    c8_distance_score_monotone.1 1 2 (by norm_num) (by norm_num),
    le_refl 0, c8_distance_score_monotone.2.1 0 (le_refl 0)⟩

/-- C9: a missing or unparseable popularity normalizes to 0.0 — the minimum
of the scorer's [0, 1] range — whereas the distance and budget scorers
default to the neutral 0.5 on missing/unparseable input. -/
theorem c9_popularity_default_zero :
    normalize_popularity .null = 0 ∧ normalize_popularity .notNum = 0 ∧
    (∀ r, 0 ≤ normalize_popularity r ∧ normalize_popularity r ≤ 1) ∧
    distance_score .null = 0.5 ∧ distance_score .notNum = 0.5 ∧
    (∀ pl, budget_similarity .null pl = 0.5) ∧
    (∀ ub, budget_similarity ub .null = 0.5) := by
  refine ⟨rfl, rfl, ?_, rfl, rfl, ?_, ?_⟩
  · intro r
    cases r with
    | null => norm_num [normalize_popularity]
    | notNum => norm_num [normalize_popularity]
    | num v =>
      show (0 ≤ if v ≤ 5 then max 0 (min (v / 5) 1) else max 0 (min (v / 10) 1)) ∧
        (if v ≤ 5 then max 0 (min (v / 5) 1) else max 0 (min (v / 10) 1)) ≤ 1
      split_ifs <;>
        exact ⟨le_max_left 0 _, max_le (by norm_num) (min_le_right _ _)⟩
  · intro pl; cases pl <;> rfl
  · intro ub; cases ub <;> rfl

/-! ## Dish boost -/

/-- The accumulation step of `dish_boost`, written through the hit test. -/
theorem dishStep_eq (rel : Rel) (cat : String) (b : ℚ) (d : String)
    (hrel : ¬ rel = .none) :
    dishStep rel cat b d = if dishHit cat d then max b (relBoost rel) else b := by
  unfold dishStep dishHit
  cases DISH_HINTS.find? (fun e => e.1 = d) with
  | none => simp
  | some e =>
    cases hm : hintMatches e.2 cat
    · simp [hm]
    · cases rel with
      | strong => simp [hm, relBoost]
      | weak => simp [hm, relBoost]
      | none => exact absurd rfl hrel

/-- Once the accumulator reaches the relation's boost level, the loop keeps
it there. -/
theorem foldl_dishStep_fixed (rel : Rel) (cat : String) (l : List String)
    (hrel : ¬ rel = .none) :
    l.foldl (dishStep rel cat) (relBoost rel) = relBoost rel := by
  induction l with
  | nil => rfl
  | cons d t ih =>
    show List.foldl (dishStep rel cat) (dishStep rel cat (relBoost rel) d) t = _
    rw [dishStep_eq rel cat _ d hrel]
    split_ifs with h
    · rw [max_self]; exact ih
    · exact ih

/-- If some dish token hits, the loop returns exactly the relation's boost
level. -/
theorem foldl_dishStep_hit (rel : Rel) (cat : String) (l : List String)
    (hrel : ¬ rel = .none) (acc : ℚ) (hacc : acc ≤ relBoost rel)
    (hex : ∃ d ∈ l, dishHit cat d = true) :
    l.foldl (dishStep rel cat) acc = relBoost rel := by
  induction l generalizing acc with
  | nil => obtain ⟨d, hd, _⟩ := hex; exact absurd hd (List.not_mem_nil d)
  | cons d t ih =>
    show List.foldl (dishStep rel cat) (dishStep rel cat acc d) t = _
    rw [dishStep_eq rel cat _ d hrel]
    by_cases hd : dishHit cat d = true
    · rw [if_pos hd, max_eq_right hacc]
      exact foldl_dishStep_fixed rel cat t hrel
    · rw [if_neg hd]
      rcases hex with ⟨e, he, hhit⟩
      rcases List.mem_cons.mp he with rfl | het
      · exact absurd hhit hd
      · exact ih acc hacc ⟨e, het, hhit⟩

/-- C5: `dish_boost` is 0.25 when the cuisine relation is strong and some
requested dish's hinted cuisine/category occurs in the candidate category,
0.15 when the relation is weak, and exactly 0 whenever the relation is
none — even if a dish hint matched. -/
theorem c5_dish_boost_levels (attrs : Attrs) (place : Place) :
    (classify_cuisine_relation attrs place = .none → dish_boost attrs place = 0) ∧
    (classify_cuisine_relation attrs place = .strong →
      (∃ d ∈ dishesOf attrs, dishHintHit place d = true) →
      dish_boost attrs place = 0.25) ∧
    (classify_cuisine_relation attrs place = .weak →
      (∃ d ∈ dishesOf attrs, dishHintHit place d = true) →
      dish_boost attrs place = 0.15) := by
  refine ⟨?_, ?_, ?_⟩
  · intro h
    unfold dish_boost
    cases htr : truthySL attrs.dish with
    | none => rfl
    | some sl => simp [h]
  · intro h hex
    have hrel : ¬ classify_cuisine_relation attrs place = .none := by rw [h]; intro hc; cases hc
    unfold dish_boost
    cases htr : truthySL attrs.dish with
    | none =>
      obtain ⟨d, hd, _⟩ := hex
      rw [show dishesOf attrs = [] from by unfold dishesOf slItems; rw [htr]; rfl] at hd
      exact absurd hd (List.not_mem_nil d)
    | some sl =>
      simp only [if_neg hrel]
      have := foldl_dishStep_hit (classify_cuisine_relation attrs place)
        ((place.category.getD "").lowerPy) (dishesOf attrs) hrel 0
        (by rw [h]; norm_num [relBoost]) hex
      rw [this, h]
      rfl
  · intro h hex
    have hrel : ¬ classify_cuisine_relation attrs place = .none := by rw [h]; intro hc; cases hc
    unfold dish_boost
    cases htr : truthySL attrs.dish with
    | none =>
      obtain ⟨d, hd, _⟩ := hex
      rw [show dishesOf attrs = [] from by unfold dishesOf slItems; rw [htr]; rfl] at hd
      exact absurd hd (List.not_mem_nil d)
    | some sl =>
      simp only [if_neg hrel]
      have := foldl_dishStep_hit (classify_cuisine_relation attrs place)
        ((place.category.getD "").lowerPy) (dishesOf attrs) hrel 0
        (by rw [h]; norm_num [relBoost]) hex
      rw [this, h]
      rfl

/-- C5 witness: the end-to-end scenario — dish "dosa", candidate category
"south indian", strong relation — earns dish_boost 0.25. -/
theorem c5_dish_boost_levels_witness :
    classify_cuisine_relation attrsDosa placeSouthIndian = Rel.strong ∧
    "dosa" ∈ dishesOf attrsDosa ∧ dishHintHit placeSouthIndian "dosa" = true ∧
    dish_boost attrsDosa placeSouthIndian = 0.25 :=
  ⟨by decide, by decide, by decide,
    (c5_dish_boost_levels attrsDosa placeSouthIndian).2.1 (by decide)
      ⟨"dosa", by decide, by decide⟩⟩

/-! ## Cuisine fallback diagnostic -/

/-- C4 (amended): when a cuisine is requested and the selected candidate
set is non-empty, `_fallback_type` is "cuisine_family_fallback" exactly
when no selected candidate's category/cuisine text contains the requested
token; with no requested cuisine, or with an empty selected candidate set,
it is left null. -/
theorem c4_cuisine_fallback (attrs : Attrs) (places : List Place) :
    (userCuisineOf attrs = Option.none →
      rank_places_fallback_type attrs places = Option.none) ∧
    (∀ rc, userCuisineOf attrs = some rc →
      (selectedCandidates attrs places = [] →
        rank_places_fallback_type attrs places = Option.none) ∧
      (¬ selectedCandidates attrs places = [] →
        ((∀ p ∈ selectedCandidates attrs places, cuisineTokenHit rc p = false) →
          rank_places_fallback_type attrs places = some "cuisine_family_fallback") ∧
        ((∃ p ∈ selectedCandidates attrs places, cuisineTokenHit rc p = true) →
          rank_places_fallback_type attrs places = Option.none))) := by
  constructor
  · intro h
    simp only [rank_places_fallback_type, h]
  · intro rc h
    simp only [rank_places_fallback_type, h]
    refine ⟨fun hC => by rw [if_pos hC], fun hC => ⟨?_, ?_⟩⟩
    · intro hall
      rw [if_neg hC, if_neg]
      simp only [List.any_eq_true, not_exists]
      intro p
      rw [not_and]
      intro hp
      rw [hall p hp]
      exact Bool.false_ne_true
    · intro hex
      rw [if_neg hC, if_pos (List.any_eq_true.mpr hex)]

/-- C4 counterexample: cuisine "kerala" requested but the selected
candidate set is empty — vacuously no candidate contains the token, yet
`_fallback_type` is left null rather than set to
"cuisine_family_fallback". -/
theorem c4_cuisine_fallback_cex :
    userCuisineOf attrsKerala = some "kerala" ∧
    selectedCandidates attrsKerala [] = [] ∧
    rank_places_fallback_type attrsKerala [] = Option.none :=
  ⟨by decide, by decide, by decide⟩

/-- C4 witness: cuisine "kerala" with one non-matching candidate sets the
fallback marker. -/
theorem c4_cuisine_fallback_witness :
    userCuisineOf attrsKerala = some "kerala" ∧
    ¬ selectedCandidates attrsKerala [placePizza] = [] ∧
    rank_places_fallback_type attrsKerala [placePizza] = some "cuisine_family_fallback" :=
  ⟨by decide, by decide,
    (((c4_cuisine_fallback attrsKerala [placePizza]).2 "kerala" (by decide)).2
      (by decide)).1 (by decide)⟩

/-! ## Re-ranking lemmas -/

/-- Membership through one stable descending insertion. -/
theorem mem_insDesc (key : Place → ℚ) (a q : Place) (t : List Place) :
    q ∈ insDesc key a t ↔ q = a ∨ q ∈ t := by
  induction t with
  | nil => simp [insDesc]
  | cons b t ih =>
    unfold insDesc
    split_ifs with h
    · simp [List.mem_cons]
    · rw [List.mem_cons, ih, List.mem_cons]
      tauto

/-- The stable descending sort permutes membership only. -/
theorem mem_sortByDesc (key : Place → ℚ) (l : List Place) (q : Place) :
    q ∈ sortByDesc key l ↔ q ∈ l := by
  induction l with
  | nil => simp [sortByDesc]
  | cons a t ih =>
    show q ∈ insDesc key a (sortByDesc key t) ↔ _
    rw [mem_insDesc, ih, List.mem_cons]

/-- A successful dict lookup comes from some stored entry. -/
theorem lookupLast_mem (E : List (String × ℚ × String)) (k : String) (rs : ℚ × String)
    (h : lookupLast E k = some rs) : ∃ e ∈ E, e.1 = k ∧ e.2 = rs := by
  unfold lookupLast at h
  cases hf : E.reverse.find? (fun e => e.1 = k) with
  | none => rw [hf] at h; cases h
  | some e =>
    rw [hf] at h
    refine ⟨e, List.mem_reverse.mp (List.mem_of_find?_eq_some hf), ?_, ?_⟩
    · have hpk := List.find?_some hf
      simpa using hpk
    · simpa using h

/-- Every `review_scores` entry records a top-K candidate with non-blank
review text and its score/summary. -/
theorem reviewEntries_mem (uq : String) (a : Attrs) (c : List Place)
    (e : String × ℚ × String) (h : e ∈ reviewEntries uq a c) :
    ∃ p ∈ c, ¬ (flattenReviews p).trimPy = "" ∧
      e = (pidStr p.place_id, reviewMatchScore uq a (flattenReviews p),
           shortReviewSummary (flattenReviews p)) := by
  unfold reviewEntries at h
  obtain ⟨p, hp, hfp⟩ := List.mem_filterMap.mp h
  have hfp' : (if (flattenReviews p).trimPy = "" then Option.none
      else some (pidStr p.place_id, reviewMatchScore uq a (flattenReviews p),
        shortReviewSummary (flattenReviews p))) = some e := hfp
  by_cases ht : (flattenReviews p).trimPy = ""
  · rw [if_pos ht] at hfp'
    cases hfp'
  · rw [if_neg ht] at hfp'
    exact ⟨p, hp, ht, (Option.some.inj hfp').symm⟩

/-- The blended clamp stays within [0.3, 1]. -/
theorem blend_bounds (x : ℚ) :
    0.3 ≤ 0.3 + 0.7 * max 0 (min x 1) ∧ 0.3 + 0.7 * max 0 (min x 1) ≤ 1 := by
  have h0 : (0:ℚ) ≤ max 0 (min x 1) := le_max_left _ _
  have h1 : max 0 (min x 1) ≤ 1 := max_le (by norm_num) (min_le_right _ _)
  constructor <;> linarith

/-- `_review_match_score` lands in [0.3, 1]. -/
theorem reviewMatchScore_bounds (uq : String) (a : Attrs) (t : String) :
    0.3 ≤ reviewMatchScore uq a t ∧ reviewMatchScore uq a t ≤ 1 := by
  simp only [reviewMatchScore]
  split_ifs
  · norm_num
  · norm_num
  · norm_num
  · exact blend_bounds _

/-- A candidate with no `review_scores` entry keeps its base score. -/
theorem rescoreOne_none (E : List (String × ℚ × String)) (bw : ℚ) (p : Place)
    (h : lookupLast E (pidStr p.place_id) = Option.none) :
    rescoreOne E bw p = { p with score_with_reviews := some (p.score.getD 0) } := by
  simp only [rescoreOne]
  rw [h]

/-- Re-scoring always attaches a `score_with_reviews` value and never
touches the base score. -/
theorem rescoreOne_swr (E : List (String × ℚ × String)) (bw : ℚ) (p : Place) :
    ¬ (rescoreOne E bw p).score_with_reviews = Option.none ∧
    (rescoreOne E bw p).score = p.score := by
  simp only [rescoreOne]
  cases lookupLast E (pidStr p.place_id) with
  | none => exact ⟨by simp, rfl⟩
  | some rs => exact ⟨by simp, rfl⟩

/-- The blended score of a candidate with a `review_scores` entry. -/
theorem rescoreOne_some_swr (E : List (String × ℚ × String)) (bw : ℚ) (p : Place)
    (rs : ℚ × String) (h : lookupLast E (pidStr p.place_id) = some rs) :
    (rescoreOne E bw p).score_with_reviews =
      some ((1 - bw) * p.score.getD 0 + bw * rs.1) := by
  simp only [rescoreOne]
  rw [h]

/-- With no review text among the top-15, `re_rank_with_reviews` returns
its input unchanged. -/
theorem reRank_skip (uq : String) (a : Attrs) (l : List Place)
    (h : ∀ p ∈ l.take 15, (flattenReviews p).trimPy = "") :
    re_rank_with_reviews uq a l = l := by
  unfold re_rank_with_reviews
  by_cases hne : l = []
  · rw [if_pos hne]
  rw [if_neg hne]
  by_cases hany : l.any (fun p => ¬ (flattenReviews p).trimPy = "") = true
  · rw [if_neg (not_not_intro hany)]
    have hent : reviewEntries uq a (l.take 15) = [] := by
      refine List.filterMap_eq_nil_iff.mpr (fun p hp => ?_)
      show (if (flattenReviews p).trimPy = "" then Option.none
        else some (pidStr p.place_id, reviewMatchScore uq a (flattenReviews p),
          shortReviewSummary (flattenReviews p))) = Option.none
      rw [if_pos (h p hp)]
    show (if reviewEntries uq a (l.take 15) = [] then l
      else sortByDesc sortKey (l.map (rescoreOne (reviewEntries uq a (l.take 15)) 0.25))) = l
    rw [if_pos hent]
  · rw [if_pos hany]

/-- When some top-15 candidate has review text, `re_rank_with_reviews`
takes its re-scoring branch. -/
theorem reRank_main_of_ex (uq : String) (a : Attrs) (l : List Place)
    (hex : ∃ p ∈ l.take 15, ¬ (flattenReviews p).trimPy = "") :
    re_rank_with_reviews uq a l =
      sortByDesc sortKey (l.map (rescoreOne (reviewEntries uq a (l.take 15)) 0.25)) := by
  obtain ⟨p0, hp0, hb0⟩ := hex
  have hne : ¬ l = [] := by
    intro h
    rw [h] at hp0
    exact absurd hp0 (List.not_mem_nil p0)
  have hany : l.any (fun p => ¬ (flattenReviews p).trimPy = "") = true :=
    List.any_eq_true.mpr ⟨p0, List.mem_of_mem_take hp0, by simpa using hb0⟩
  have hent : ¬ reviewEntries uq a (l.take 15) = [] := by
    intro hnil
    have hval := List.filterMap_eq_nil_iff.mp hnil p0 hp0
    have h2 : (if (flattenReviews p0).trimPy = "" then Option.none
        else some (pidStr p0.place_id, reviewMatchScore uq a (flattenReviews p0),
          shortReviewSummary (flattenReviews p0))) = Option.none := hval
    rw [if_neg hb0] at h2
    cases h2
  unfold re_rank_with_reviews
  rw [if_neg hne, if_neg (not_not_intro hany)]
  show (if reviewEntries uq a (l.take 15) = [] then l
    else sortByDesc sortKey (l.map (rescoreOne (reviewEntries uq a (l.take 15)) 0.25))) = _
  rw [if_neg hent]

/-- A candidate at an index beyond the top 15, or with blank review text,
has no `review_scores` entry — provided place_id keys are duplicate-free. -/
theorem lookupLast_beyond (uq : String) (a : Attrs) (l : List Place) (i : ℕ)
    (hi : i < l.length) (hnd : pidNodup l)
    (hib : 15 ≤ i ∨ (flattenReviews (l.get ⟨i, hi⟩)).trimPy = "") :
    lookupLast (reviewEntries uq a (l.take 15)) (pidStr (l.get ⟨i, hi⟩).place_id) =
      Option.none := by
  cases ho : lookupLast (reviewEntries uq a (l.take 15))
      (pidStr (l.get ⟨i, hi⟩).place_id) with
  | none => rfl
  | some rs =>
    exfalso
    obtain ⟨e, heE, hek, _⟩ := lookupLast_mem _ _ _ ho
    obtain ⟨p, hpc, hpb, rfl⟩ := reviewEntries_mem _ _ _ _ heE
    obtain ⟨j, hj, hpj⟩ := List.getElem_of_mem hpc
    have hjlen : j < l.length := by
      have := hj
      rw [List.length_take] at this
      omega
    have hj15 : j < 15 := by
      have := hj
      rw [List.length_take] at this
      omega
    rw [List.getElem_take] at hpj
    have hpid : pidStr p.place_id = pidStr (l.get ⟨i, hi⟩).place_id := by simpa using hek
    have hjm : j < (l.map (fun p => pidStr p.place_id)).length := by simpa using hjlen
    have him : i < (l.map (fun p => pidStr p.place_id)).length := by simpa using hi
    have hmap : (l.map (fun p => pidStr p.place_id))[j] =
        (l.map (fun p => pidStr p.place_id))[i] := by
      rw [List.getElem_map, List.getElem_map, hpj]
      simpa [List.get_eq_getElem] using hpid
    have hij : j = i := hnd.getElem_inj_iff.mp hmap
    rcases hib with h15 | hbl
    · omega
    · apply hpb
      have hpeq : p = l.get ⟨i, hi⟩ := by
        subst hij
        rw [← hpj]
        simp [List.get_eq_getElem]
      rw [hpeq]
      exact hbl

/-! ## Claims about `re_rank_with_reviews` -/

/-- C10: when none of the first 15 candidates has non-blank review text,
`re_rank_with_reviews` returns the input list entirely unchanged — even if
candidates beyond position 15 do have review text. -/
theorem c10_no_topk_reviews_unchanged (uq : String) (a : Attrs) (l : List Place)
    (h : ∀ p ∈ l.take 15, (flattenReviews p).trimPy = "") :
    re_rank_with_reviews uq a l = l :=
  reRank_skip uq a l h

/-- C10 witness: 15 review-less candidates followed by a reviewed one —
the list comes back untouched. -/
theorem c10_no_topk_reviews_unchanged_witness :
    (∀ p ∈ listLateReviews.take 15, (flattenReviews p).trimPy = "") ∧
    re_rank_with_reviews "x" ({} : Attrs) listLateReviews = listLateReviews :=
  ⟨by decide, c10_no_topk_reviews_unchanged "x" ({} : Attrs) listLateReviews (by decide)⟩

/-- C3 (amended): when some top-15 candidate has non-blank review text and
place_ids are duplicate-free, every returned candidate carries a
`score_with_reviews` value, and a candidate beyond the top 15 or with blank
review text reappears with `score_with_reviews` equal to its score (0.0
when the score is missing); when no top-15 candidate has review text the
list is returned unchanged, without the field. -/
theorem c3_reviews_augmentation (uq : String) (a : Attrs) (l : List Place)
    (hnd : pidNodup l) :
    ((∃ p ∈ l.take 15, ¬ (flattenReviews p).trimPy = "") →
      (∀ q ∈ re_rank_with_reviews uq a l, ¬ q.score_with_reviews = Option.none) ∧
      (∀ i (hi : i < l.length),
        (15 ≤ i ∨ (flattenReviews (l.get ⟨i, hi⟩)).trimPy = "") →
        { l.get ⟨i, hi⟩ with
            score_with_reviews := some ((l.get ⟨i, hi⟩).score.getD 0) } ∈
          re_rank_with_reviews uq a l)) ∧
    ((∀ p ∈ l.take 15, (flattenReviews p).trimPy = "") →
      re_rank_with_reviews uq a l = l) := by
  constructor
  · intro hex
    have hmain := reRank_main_of_ex uq a l hex
    constructor
    · intro q hq
      rw [hmain, mem_sortByDesc] at hq
      obtain ⟨p, hp, rfl⟩ := List.mem_map.mp hq
      exact (rescoreOne_swr _ _ _).1
    · intro i hi hcond
      rw [hmain, mem_sortByDesc]
      have hlk := lookupLast_beyond uq a l i hi hnd hcond
      rw [← rescoreOne_none (reviewEntries uq a (l.take 15)) 0.25 (l.get ⟨i, hi⟩) hlk]
      exact List.mem_map_of_mem _ (List.get_mem l i hi)
  · exact reRank_skip uq a l

/-- C3 counterexample: a single candidate with no reviews comes back
without any `score_with_reviews` field, so not every returned candidate is
augmented. -/
theorem c3_reviews_augmentation_cex :
    re_rank_with_reviews "x" ({} : Attrs) [placeNoReviews] = [placeNoReviews] ∧
    placeNoReviews.score_with_reviews = Option.none :=
  ⟨reRank_skip "x" ({} : Attrs) [placeNoReviews] (by decide), rfl⟩

/-- C3 witness: with a reviewed head candidate and a review-less second
candidate (distinct place_ids), the second one reappears with
`score_with_reviews` equal to its score 0.5. -/
theorem c3_reviews_augmentation_witness :
    pidNodup [placeReviewed, placeNoReviews] ∧
    ({ placeNoReviews with score_with_reviews := some (0.5 : ℚ) } : Place) ∈
      re_rank_with_reviews "x" ({} : Attrs) [placeReviewed, placeNoReviews] :=
  ⟨by decide,
    ((c3_reviews_augmentation "x" ({} : Attrs) [placeReviewed, placeNoReviews]
      (by decide)).1 ⟨placeReviewed, by simp, by decide⟩).2 1 (by decide)
      (Or.inr (by decide))⟩

/-- C7 (amended): provided place_id keys are duplicate-free, a candidate at
an index beyond the top 15 is never blended with review content: either the
whole list is returned unchanged, or that candidate reappears with only
`score_with_reviews` attached, equal to its score (0.0 when the score is
missing). -/
theorem c7_beyond_topk_frame (uq : String) (a : Attrs) (l : List Place) (i : ℕ)
    (hi : i < l.length) (hnd : pidNodup l) (h15 : 15 ≤ i) :
    re_rank_with_reviews uq a l = l ∨
    { l.get ⟨i, hi⟩ with
        score_with_reviews := some ((l.get ⟨i, hi⟩).score.getD 0) } ∈
      re_rank_with_reviews uq a l := by
  by_cases hall : ∀ p ∈ l.take 15, (flattenReviews p).trimPy = ""
  · exact Or.inl (reRank_skip uq a l hall)
  · right
    push_neg at hall
    have hmain := reRank_main_of_ex uq a l hall
    rw [hmain, mem_sortByDesc]
    have hlk := lookupLast_beyond uq a l i hi hnd (Or.inl h15)
    rw [← rescoreOne_none (reviewEntries uq a (l.take 15)) 0.25 (l.get ⟨i, hi⟩) hlk]
    exact List.mem_map_of_mem _ (List.get_mem l i hi)

/-- C7 counterexample: with a duplicated place_id "a" (head reviewed, tail
at index 15 review-less), the tail candidate's `score_with_reviews` is the
blended 0.25·0.3 = 0.075, not its score 0 — review content leaked beyond
the top 15. -/
theorem c7_beyond_topk_frame_cex :
    listDupPid.get ⟨15, by decide⟩ = placeTail ∧
    rescoreOne (reviewEntries "x" ({} : Attrs) (listDupPid.take 15)) 0.25 placeTail =
      placeTailRescored ∧
    placeTailRescored ∈ re_rank_with_reviews "x" ({} : Attrs) listDupPid ∧
    ¬ placeTailRescored.score_with_reviews = some (placeTail.score.getD 0) := by
  have hres : rescoreOne (reviewEntries "x" ({} : Attrs) (listDupPid.take 15)) 0.25
      placeTail = placeTailRescored := rfl
  refine ⟨by decide, hres, ?_, ?_⟩
  · rw [reRank_main_of_ex "x" ({} : Attrs) listDupPid
      ⟨placeTopReviewed, by decide, by decide⟩, mem_sortByDesc, ← hres]
    exact List.mem_map_of_mem _ (by simp [listDupPid])
  · intro h
    have h2 : (1 - 0.25) * 0 + 0.25 * reviewMatchScore "x" ({} : Attrs) "good" =
        placeTail.score.getD 0 := Option.some.inj h
    have h3 : placeTail.score.getD 0 = 0 := rfl
    have hb := reviewMatchScore_bounds "x" ({} : Attrs) "good"
    rw [h3] at h2
    linarith [hb.1]

/-- C7 witness: 16 candidates with distinct place_ids, the head reviewed;
the index-15 candidate is outside the review blend. -/
theorem c7_beyond_topk_frame_witness :
    pidNodup listDistinctPids ∧ 15 < listDistinctPids.length ∧
    (re_rank_with_reviews "x" ({} : Attrs) listDistinctPids = listDistinctPids ∨
      { listDistinctPids.get ⟨15, by decide⟩ with
          score_with_reviews :=
            some ((listDistinctPids.get ⟨15, by decide⟩).score.getD 0) } ∈
        re_rank_with_reviews "x" ({} : Attrs) listDistinctPids) :=
  ⟨by decide, by decide,
    c7_beyond_topk_frame "x" ({} : Attrs) listDistinctPids 15 (by decide) (by decide)
      (by decide)⟩

/-- C2: `compute_score` always lands in [0, 1]; and when the ranked input
carries scores in [0, 1] and no pre-existing `score_with_reviews`, every
`score_with_reviews` value attached by the re-ranker lands in [0, 1] too. -/
theorem c2_scores_in_unit_interval (a2 : Attrs) (p2 : Place) (uq : String) (a : Attrs)
    (l : List Place)
    (hs : ∀ p ∈ l, ∀ s, p.score = some s → 0 ≤ s ∧ s ≤ 1)
    (hn : ∀ p ∈ l, p.score_with_reviews = Option.none)
    (q : Place) (hq : q ∈ re_rank_with_reviews uq a l) (s : ℚ)
    (hqs : q.score_with_reviews = some s) :
    (0 ≤ compute_score a2 p2 ∧ compute_score a2 p2 ≤ 1) ∧ (0 ≤ s ∧ s ≤ 1) := by
  constructor
  · simp only [compute_score]
    exact ⟨le_max_left 0 _, max_le (by norm_num) (min_le_right _ _)⟩
  · by_cases hex : ∃ p ∈ l.take 15, ¬ (flattenReviews p).trimPy = ""
    · rw [reRank_main_of_ex uq a l hex, mem_sortByDesc] at hq
      obtain ⟨p, hp, rfl⟩ := List.mem_map.mp hq
      have hbase : 0 ≤ p.score.getD 0 ∧ p.score.getD 0 ≤ 1 := by
        cases hps : p.score with
        | none => norm_num
        | some s0 => simpa using hs p hp s0 hps
      cases hlk : lookupLast (reviewEntries uq a (l.take 15)) (pidStr p.place_id) with
      | none =>
        rw [rescoreOne_none _ _ _ hlk] at hqs
        have hv : p.score.getD 0 = s := Option.some.inj hqs
        rw [← hv]
        exact hbase
      | some rs =>
        rw [rescoreOne_some_swr _ 0.25 p rs hlk] at hqs
        have hv : (1 - 0.25) * p.score.getD 0 + 0.25 * rs.1 = s := Option.some.inj hqs
        obtain ⟨e, heE, hek, he2⟩ := lookupLast_mem _ _ _ hlk
        obtain ⟨p', hp', hb', rfl⟩ := reviewEntries_mem _ _ _ _ heE
        have hr := reviewMatchScore_bounds uq a (flattenReviews p')
        have hrs1 : rs.1 = reviewMatchScore uq a (flattenReviews p') := by
          rw [← he2]
        rw [← hv, hrs1]
        constructor <;> linarith [hbase.1, hbase.2, hr.1, hr.2]
    · push_neg at hex
      rw [reRank_skip uq a l hex] at hq
      rw [hn q hq] at hqs
      cases hqs

/-- C2 witness: the [0,1] bound at a concrete preference/place pair and at
the blended score of a concrete reviewed candidate. -/
theorem c2_scores_in_unit_interval_witness :
    (0 ≤ compute_score ({} : Attrs) ({} : Place) ∧
      compute_score ({} : Attrs) ({} : Place) ≤ 1) ∧
    (0 ≤ (1 - 0.25) * (0.5:ℚ) + 0.25 * reviewMatchScore "x" ({} : Attrs) "good" ∧
      (1 - 0.25) * (0.5:ℚ) + 0.25 * reviewMatchScore "x" ({} : Attrs) "good" ≤ 1) :=
  c2_scores_in_unit_interval ({} : Attrs) ({} : Place) "x" ({} : Attrs) [placeReviewed]
    (by
      intro p hp s hsc
      rw [List.mem_singleton] at hp
      subst hp
      have hv : (0.5:ℚ) = s := Option.some.inj hsc
      subst hv
      norm_num)
    (by decide)
    placeReviewedRescored
    (by
      rw [reRank_main_of_ex "x" ({} : Attrs) [placeReviewed]
        ⟨placeReviewed, by simp, by decide⟩, mem_sortByDesc]
      have hres : rescoreOne (reviewEntries "x" ({} : Attrs) ([placeReviewed].take 15))
          0.25 placeReviewed = placeReviewedRescored := rfl
      rw [← hres]
      exact List.mem_map_of_mem _ (by simp))
    ((1 - 0.25) * (0.5:ℚ) + 0.25 * reviewMatchScore "x" ({} : Attrs) "good")
    rfl

end FoodBackend
